import Mathlib

/-!
Shallow embedding of the bingo game server core (`backend/main.py`).

The game-state machine is embedded as pure Lean functions over explicit
state.  Randomness is made explicit: the card generator takes the shuffled
column pools as a parameter (the outcome of `random.shuffle`), a draw takes
a choice index `k` and picks `rem[k % len rem]` (covering every outcome of
`random.choice`), and `create_game` takes the generated token as a
parameter (the outcome of `secrets.token_urlsafe`).  Python dicts are
embedded as association lists in insertion order.  Pydantic request
validation (field bounds on `MarkReq.index` and `AutoReq.interval`) runs
before the handler body, so it appears as the first check of the
corresponding operation.
-/

namespace Bingo

/-- `PlayerState` from `backend/main.py`: card has 25 entries with index 12
free (`none`); marks are 25 booleans. `joined_at` time is abstracted to a
natural number. -/
structure PlayerState where
  user_id : String
  name : String
  card : List (Option Nat)
  marks : List Bool
  joined_at : Nat
deriving Repr, DecidableEq

/-- `GameState` from `backend/main.py`.  The `players` dict is an
association list in insertion order (Python dict semantics). -/
structure GameState where
  game_id : String
  host_id : String
  created_at : Nat
  draws : List Nat
  players : List (String × PlayerState)
  winner_ids : List String
  closed : Bool
deriving Repr, DecidableEq

/-- The error taxonomy of the operations: HTTP 404 / 403 / 400 and the
pydantic validation failure 422. -/
inductive ApiError where
  | notFound
  | forbidden
  | invalidState
  | invalidArgument
deriving Repr, DecidableEq

/-- `uid in g.players` (Python dict membership). -/
def hasKey (ps : List (String × PlayerState)) (uid : String) : Bool :=
  ps.any (fun q => q.1 == uid)

/-- `g.players.get(uid)` (Python dict lookup). -/
def lookupPlayer (ps : List (String × PlayerState)) (uid : String) :
    Option PlayerState :=
  (ps.find? (fun q => q.1 == uid)).map (fun q => q.2)

/-- In-place mutation of the player stored under `uid` (Python mutates the
`PlayerState` object obtained from the dict). -/
def updatePlayer (ps : List (String × PlayerState)) (uid : String)
    (f : PlayerState → PlayerState) : List (String × PlayerState) :=
  ps.map (fun q => if q.1 == uid then (q.1, f q.2) else q)

/-- Column `c`'s pool: `list(range(1 + c * 15, 1 + c * 15 + 15))`. -/
def colPool (c : Nat) : List Nat := List.range' (1 + c * 15) 15

/-- `make_card` from `backend/main.py`, with the shuffle outcome explicit:
`cols c` is column `c`'s pool after `random.shuffle` (a permutation of
`colPool c`).  The card takes the first 5 of each shuffled pool, flattens
by rows (`card[r*5+c] = cols[c][r]`), and forces index 12 to the free
marker. -/
def make_card (cols : Nat → List Nat) : List (Option Nat) :=
  (((List.range 5).map (fun r =>
      (List.range 5).map (fun c => some (((cols c).take 5).getD r 0)))).flatten).set 12 none

/-- `new_marks` from `backend/main.py`: 25 `false`s with index 12 `true`. -/
def new_marks : List Bool :=
  (List.replicate 25 false).set 12 true

/-- The 12 winning lines: 5 rows, 5 columns, 2 diagonals. -/
def linesList : List (List Nat) :=
  ((List.range 5).map (fun r => (List.range 5).map (fun c => r * 5 + c))) ++
  ((List.range 5).map (fun c => (List.range 5).map (fun r => r * 5 + c))) ++
  [[0, 6, 12, 18, 24], [4, 8, 12, 16, 20]]

/-- `check_line_bingo` from `backend/main.py`. -/
def check_line_bingo (marks : List Bool) : Bool :=
  linesList.any (fun line => line.all (fun i => marks.getD i false))

/-- `marked_cells_are_valid` from `backend/main.py`: every marked cell
(except the free cell 12 and cells with no value) holds a drawn number. -/
def marked_cells_are_valid (card : List (Option Nat)) (marks : List Bool)
    (draws : List Nat) : Bool :=
  (List.range marks.length).all (fun i =>
    if !(marks.getD i false) then true
    else if i == 12 then true
    else
      match card.getD i none with
      | none => true
      | some v => draws.contains v)

/-- `remaining_numbers` from `backend/main.py`:
`[n for n in range(1, 76) if n not in draws]`. -/
def remaining_numbers (draws : List Nat) : List Nat :=
  (List.range' 1 75).filter (fun n => !(draws.contains n))

/-- The game value built by `create_game`: empty draws and winners, not
closed, host auto-joined as first player (with the host's generated card). -/
def init_game (gid host_id host_name : String) (card : List (Option Nat))
    (now : Nat) : GameState :=
  { game_id := gid
    host_id := host_id
    created_at := now
    draws := []
    players := [(host_id,
      { user_id := host_id, name := host_name.take 64, card := card,
        marks := new_marks, joined_at := now })]
    winner_ids := []
    closed := false }

/-- Python `d[k] = v` on a dict: overwrite if the key exists, else append. -/
def dictInsert (d : List (String × GameState)) (k : String) (v : GameState) :
    List (String × GameState) :=
  if d.any (fun q => q.1 == k) then
    d.map (fun q => if q.1 == k then (q.1, v) else q)
  else d ++ [(k, v)]

/-- `GAMES.get(gid)`. -/
def lookupGame (d : List (String × GameState)) (k : String) :
    Option GameState :=
  (d.find? (fun q => q.1 == k)).map (fun q => q.2)

/-- `create_game` from `backend/main.py`, on the registry: stores a fresh
game under the generated token `gid` (no collision check in the source). -/
def create_game (games : List (String × GameState))
    (gid host_id host_name : String) (card : List (Option Nat)) (now : Nat) :
    List (String × GameState) :=
  dictInsert games gid (init_game gid host_id host_name card now)

/-- `join_game` from `backend/main.py`.  `card` is the fresh card that
`make_card()` would produce for a new player. -/
def join_game (g : Option GameState) (user_id name : String)
    (card : List (Option Nat)) (now : Nat) : Except ApiError GameState :=
  match g with
  | none => .error .notFound
  | some g =>
    if g.closed then .error .notFound
    else if 400 ≤ g.players.length ∧ hasKey g.players user_id = false then
      .error .forbidden
    else if hasKey g.players user_id then .ok g
    else .ok { g with players := g.players ++
      [(user_id, { user_id := user_id, name := name.take 64, card := card,
                   marks := new_marks, joined_at := now })] }

/-- `draw_number` from `backend/main.py` (manual draw).  `random.choice(rem)`
is embedded as `rem[k % len rem]` for an arbitrary `k`. -/
def draw_number (g : Option GameState) (user_id : String) (k : Nat) :
    Except ApiError (GameState × Nat) :=
  match g with
  | none => .error .notFound
  | some g =>
    if g.closed then .error .notFound
    else if user_id ≠ g.host_id then .error .forbidden
    else if 75 ≤ g.draws.length then .error .invalidState
    else
      let rem := remaining_numbers g.draws
      if rem.isEmpty then .error .invalidState
      else
        let nxt := rem.getD (k % rem.length) 0
        .ok ({ g with draws := g.draws ++ [nxt] }, nxt)

/-- The post-timeout body of `_auto_draw_loop` from `backend/main.py`
(lines after `stop.wait`): re-checks that the game still exists (the
`none` case is handled at the registry level and appends nothing), that
fewer than 75 numbers are drawn, and that the remaining pool is nonempty,
then appends `random.choice(rem)`.  Note the source does NOT re-check
`g.closed` in this block; `closed` is only consulted at the top of the
next loop iteration. -/
def auto_draw_step (g : GameState) (k : Nat) : GameState :=
  if 75 ≤ g.draws.length then g
  else
    let rem := remaining_numbers g.draws
    if rem.isEmpty then g
    else { g with draws := g.draws ++ [rem.getD (k % rem.length) 0] }

/-- `mark_cell` from `backend/main.py`, with the pydantic `MarkReq`
validation `index: int = Field(ge=0, le=24)` as the first check (it runs
before the handler and rejects with a 422 validation error). -/
def mark_cell (g : Option GameState) (user_id : String) (index : Int)
    (marked : Bool) : Except ApiError GameState :=
  if index < 0 ∨ 24 < index then .error .invalidArgument
  else
    match g with
    | none => .error .notFound
    | some g =>
      if hasKey g.players user_id = false then .error .notFound
      else if index == 12 then
        let ps := updatePlayer g.players user_id
          (fun p => { p with marks := p.marks.set 12 true })
        .ok { g with players := ps }
      else
        let ps := updatePlayer g.players user_id
          (fun p => { p with marks := p.marks.set index.toNat marked })
        .ok { g with players := ps }

/-- Winner-name resolution shared by `get_state` and `claim_bingo`:
`[g.players[uid].name for uid in g.winner_ids if uid in g.players]`. -/
def winner_names (players : List (String × PlayerState))
    (winner_ids : List String) : List String :=
  winner_ids.filterMap (fun uid => (lookupPlayer players uid).map (fun p => p.name))

/-- `claim_bingo` from `backend/main.py`: returns the new state, the
validity flag and the resolved winner names. -/
def claim_bingo (g : Option GameState) (user_id : String) :
    Except ApiError (GameState × Bool × List String) :=
  match g with
  | none => .error .notFound
  | some g =>
    if g.closed then .error .notFound
    else
      match lookupPlayer g.players user_id with
      | none => .error .notFound
      | some p =>
        let valid := marked_cells_are_valid p.card p.marks g.draws &&
          check_line_bingo p.marks
        let g2 := if valid && !(g.winner_ids.contains user_id) then
            { g with winner_ids := g.winner_ids ++ [user_id] }
          else g
        .ok (g2, valid, winner_names g2.players g2.winner_ids)

/-- `set_auto_draw` from `backend/main.py`, with the pydantic `AutoReq`
validation `interval: int = Field(5, ge=2, le=60)` as the first check
(rejects out-of-range intervals with a 422 validation error; the source
does not clamp).  Returns the acknowledgement `(on, interval)` echoed by
the handler. -/
def set_auto_draw (g : Option GameState) (user_id : String) (onFlag : Bool)
    (interval : Int) : Except ApiError (Bool × Int) :=
  if interval < 2 ∨ 60 < interval then .error .invalidArgument
  else
    match g with
    | none => .error .notFound
    | some g =>
      if user_id ≠ g.host_id then .error .forbidden
      else .ok (onFlag, interval)

/-- One state transition of a single game: any of the mutating operations
of the source (`join_game`, `draw_number`, the auto-draw scheduler's
post-timeout draw, `mark_cell`, `claim_bingo`), over every outcome of the
embedded randomness. -/
inductive GStep : GameState → GameState → Prop where
  | join {g g' : GameState} (uid name : String) (card : List (Option Nat))
      (now : Nat) (h : join_game (some g) uid name card now = .ok g') :
      GStep g g'
  | draw {g g' : GameState} (uid : String) (k n : Nat)
      (h : draw_number (some g) uid k = .ok (g', n)) : GStep g g'
  | auto (g : GameState) (k : Nat) : GStep g (auto_draw_step g k)
  | mark {g g' : GameState} (uid : String) (i : Int) (m : Bool)
      (h : mark_cell (some g) uid i m = .ok g') : GStep g g'
  | claim {g g' : GameState} (uid : String) (v : Bool) (ns : List String)
      (h : claim_bingo (some g) uid = .ok (g', v, ns)) : GStep g g'

/-- A game state reachable from creation by the mutating operations. -/
inductive Reachable : GameState → Prop where
  | init (gid host_id host_name : String) (card : List (Option Nat))
      (now : Nat) : Reachable (init_game gid host_id host_name card now)
  | step (g g' : GameState) (hg : Reachable g) (hs : GStep g g') :
      Reachable g'

/-! ### Basic facts about the helpers -/

lemma mem_remaining_numbers (d : List Nat) (n : Nat) :
    n ∈ remaining_numbers d ↔ (1 ≤ n ∧ n ≤ 75 ∧ n ∉ d) := by
  simp only [remaining_numbers, List.mem_filter, List.mem_range'_1, Bool.not_eq_true',
    List.contains_eq_any_beq, List.any_eq_false]
  constructor
  · rintro ⟨⟨h1, h2⟩, h3⟩
    refine ⟨h1, by omega, fun hmem => ?_⟩
    have := h3 n hmem
    simp at this
  · rintro ⟨h1, h2, h3⟩
    refine ⟨⟨h1, by omega⟩, fun x hx => ?_⟩
    simp only [beq_iff_eq]
    rintro rfl
    exact h3 hx

lemma pick_mem {l : List Nat} (h : l ≠ []) (k : Nat) :
    l.getD (k % l.length) 0 ∈ l := by
  have hlen : 0 < l.length := List.length_pos.mpr h
  have hk : k % l.length < l.length := Nat.mod_lt _ hlen
  rw [List.getD_eq_getElem l 0 hk]
  exact List.getElem_mem hk

lemma draws_append_ok {d : List Nat}
    (hd : d.Nodup ∧ ∀ n ∈ d, 1 ≤ n ∧ n ≤ 75) {n : Nat}
    (hn : n ∈ remaining_numbers d) :
    (d ++ [n]).Nodup ∧ ∀ m ∈ d ++ [n], 1 ≤ m ∧ m ≤ 75 := by
  obtain ⟨h1, h2, h3⟩ := (mem_remaining_numbers d n).mp hn
  refine ⟨?_, ?_⟩
  · simp [List.nodup_append, hd.1, h3]
  · intro m hm
    rcases List.mem_append.mp hm with hm | hm
    · exact hd.2 m hm
    · simp at hm
      subst hm
      exact ⟨h1, h2⟩

lemma hasKey_eq_isSome (ps : List (String × PlayerState)) (uid : String) :
    hasKey ps uid = (lookupPlayer ps uid).isSome := by
  rw [Bool.eq_iff_iff]
  simp [hasKey, lookupPlayer, List.any_eq_true, List.find?_isSome]

lemma hasKey_append (ps : List (String × PlayerState)) (q : String × PlayerState)
    (uid : String) (h : hasKey ps uid = true) :
    hasKey (ps ++ [q]) uid = true := by
  simp only [hasKey, List.any_append, Bool.or_eq_true]
  exact Or.inl h

lemma hasKey_updatePlayer (ps : List (String × PlayerState)) (uid w : String)
    (f : PlayerState → PlayerState) :
    hasKey (updatePlayer ps uid f) w = hasKey ps w := by
  simp only [hasKey, updatePlayer, List.any_map]
  congr 1
  funext q
  by_cases hq : q.1 == uid
  · simp only [Function.comp, hq, if_pos]
  · simp only [Function.comp, hq]
    simp

lemma length_filterMap_of_isSome {α β : Type} (f : α → Option β) (l : List α)
    (h : ∀ x ∈ l, (f x).isSome = true) : (l.filterMap f).length = l.length := by
  induction l with
  | nil => rfl
  | cons a t ih =>
    have ha : (f a).isSome = true := h a (List.mem_cons_self a t)
    obtain ⟨b, hb⟩ := Option.isSome_iff_exists.mp ha
    simp only [List.filterMap_cons, hb, List.length_cons]
    rw [ih (fun x hx => h x (List.mem_cons_of_mem a hx))]

/-! ### Effect lemmas: the exact shape of each successful transition -/

lemma join_game_ok {g g' : GameState} {uid name : String}
    {card : List (Option Nat)} {now : Nat}
    (h : join_game (some g) uid name card now = .ok g') :
    g' = g ∨ g' = { g with players := g.players ++
      [(uid, { user_id := uid, name := name.take 64, card := card,
               marks := new_marks, joined_at := now })] } := by
  simp only [join_game] at h
  split_ifs at h with h1 h2 h3
  · injection h with h
    exact Or.inl h.symm
  · injection h with h
    exact Or.inr h.symm

lemma draw_number_ok {g g' : GameState} {uid : String} {k n : Nat}
    (h : draw_number (some g) uid k = .ok (g', n)) :
    n ∈ remaining_numbers g.draws ∧
    g' = { g with draws := g.draws ++ [n] } := by
  simp only [draw_number] at h
  split_ifs at h with h1 h2 h3 h4
  injection h with h
  have hg : { g with draws := g.draws ++
      [(remaining_numbers g.draws).getD (k % (remaining_numbers g.draws).length) 0] } = g' :=
    congrArg Prod.fst h
  have hn : (remaining_numbers g.draws).getD
      (k % (remaining_numbers g.draws).length) 0 = n :=
    congrArg Prod.snd h
  have hne : remaining_numbers g.draws ≠ [] := by
    intro hc
    rw [hc] at h4
    exact h4 rfl
  subst hn
  exact ⟨pick_mem hne k, hg.symm⟩

lemma auto_draw_step_eq (g : GameState) (k : Nat) :
    (75 ≤ g.draws.length ∨ remaining_numbers g.draws = [] → auto_draw_step g k = g) ∧
    (g.draws.length < 75 → remaining_numbers g.draws ≠ [] →
      auto_draw_step g k = { g with draws := g.draws ++
        [(remaining_numbers g.draws).getD (k % (remaining_numbers g.draws).length) 0] }) := by
  simp only [auto_draw_step]
  constructor
  · rintro (h | h)
    · rw [if_pos h]
    · split_ifs with h1 h2
      · rfl
      · rfl
      · rw [List.isEmpty_iff] at h2
        exact absurd h h2
  · intro h1 h2
    rw [if_neg (by omega)]
    rw [if_neg (by simpa [List.isEmpty_iff] using h2)]

lemma mark_cell_ok {g g' : GameState} {uid : String} {i : Int} {m : Bool}
    (h : mark_cell (some g) uid i m = .ok g') :
    ∃ j b, ((j = 12 ∧ b = true) ∨ j ≠ 12) ∧
      g'.players = updatePlayer g.players uid
        (fun p => { p with marks := p.marks.set j b }) ∧
      g'.draws = g.draws ∧ g'.winner_ids = g.winner_ids ∧
      g'.closed = g.closed := by
  simp only [mark_cell] at h
  split_ifs at h with h1 h2 h3
  · injection h with h
    subst h
    exact ⟨12, true, Or.inl ⟨rfl, rfl⟩, rfl, rfl, rfl, rfl⟩
  · injection h with h
    subst h
    refine ⟨i.toNat, m, Or.inr ?_, rfl, rfl, rfl, rfl⟩
    intro hc
    apply h3
    have h0 : 0 ≤ i := by omega
    have : i = 12 := by omega
    rw [this]
    rfl

lemma claim_bingo_ok {g g' : GameState} {uid : String} {v : Bool}
    {ns : List String}
    (h : claim_bingo (some g) uid = .ok (g', v, ns)) :
    g'.players = g.players ∧ g'.draws = g.draws ∧ g'.closed = g.closed ∧
    (g'.winner_ids = g.winner_ids ∨
      (g'.winner_ids = g.winner_ids ++ [uid] ∧ hasKey g.players uid = true)) := by
  simp only [claim_bingo] at h
  split_ifs at h with h1
  rcases hp : lookupPlayer g.players uid with _ | p
  · rw [hp] at h
    cases h
  · rw [hp] at h
    simp only at h
    have hk : hasKey g.players uid = true := by
      rw [hasKey_eq_isSome, hp]
      rfl
    split_ifs at h with h2
    · injection h with h
      have hg : { g with winner_ids := g.winner_ids ++ [uid] } = g' :=
        congrArg Prod.fst h
      subst hg
      exact ⟨rfl, rfl, rfl, Or.inr ⟨rfl, hk⟩⟩
    · injection h with h
      have hg : g = g' := congrArg Prod.fst h
      subst hg
      exact ⟨rfl, rfl, rfl, Or.inl rfl⟩

lemma auto_draw_step_fields (g : GameState) (k : Nat) :
    (auto_draw_step g k).players = g.players ∧
    (auto_draw_step g k).winner_ids = g.winner_ids ∧
    (auto_draw_step g k).closed = g.closed := by
  by_cases h75 : 75 ≤ g.draws.length
  · rw [(auto_draw_step_eq g k).1 (Or.inl h75)]
    exact ⟨rfl, rfl, rfl⟩
  · by_cases hrem : remaining_numbers g.draws = []
    · rw [(auto_draw_step_eq g k).1 (Or.inr hrem)]
      exact ⟨rfl, rfl, rfl⟩
    · rw [(auto_draw_step_eq g k).2 (by omega) hrem]
      exact ⟨rfl, rfl, rfl⟩

/-! ### Reachability invariants -/

lemma draws_invariant {g : GameState} (h : Reachable g) :
    g.draws.Nodup ∧ ∀ n ∈ g.draws, 1 ≤ n ∧ n ≤ 75 := by
  induction h with
  | init gid host_id host_name card now => simp [init_game]
  | step g g' hg hs ih =>
    cases hs with
    | join uid name card now hj =>
      rcases join_game_ok hj with rfl | rfl
      · exact ih
      · exact ih
    | draw uid k n hd =>
      obtain ⟨hn, rfl⟩ := draw_number_ok hd
      exact draws_append_ok ih hn
    | auto k =>
      rcases auto_draw_step_eq g k with ⟨heq, happ⟩
      by_cases h75 : 75 ≤ g.draws.length
      · rw [heq (Or.inl h75)]
        exact ih
      · by_cases hrem : remaining_numbers g.draws = []
        · rw [heq (Or.inr hrem)]
          exact ih
        · rw [happ (by omega) hrem]
          exact draws_append_ok ih (pick_mem hrem k)
    | mark uid i m hm =>
      obtain ⟨j, b, -, -, hd, -, -⟩ := mark_cell_ok hm
      rw [hd]
      exact ih
    | claim uid v ns hc =>
      obtain ⟨-, hd, -, -⟩ := claim_bingo_ok hc
      rw [hd]
      exact ih

lemma marks_invariant {g : GameState} (h : Reachable g) :
    ∀ q ∈ g.players, q.2.marks.length = 25 ∧ q.2.marks.getD 12 false = true := by
  induction h with
  | init gid host_id host_name card now =>
    intro q hq
    simp only [init_game, List.mem_singleton] at hq
    subst hq
    exact ⟨rfl, rfl⟩
  | step g g' hg hs ih =>
    cases hs with
    | join uid name card now hj =>
      rcases join_game_ok hj with rfl | rfl
      · exact ih
      · intro q hq
        simp only [List.mem_append, List.mem_singleton] at hq
        rcases hq with hq | hq
        · exact ih q hq
        · subst hq
          exact ⟨rfl, rfl⟩
    | draw uid k n hd =>
      obtain ⟨-, rfl⟩ := draw_number_ok hd
      exact ih
    | auto k =>
      intro q hq
      rw [(auto_draw_step_fields g k).1] at hq
      exact ih q hq
    | mark uid i m hm =>
      obtain ⟨j, b, hjb, hps, -, -, -⟩ := mark_cell_ok hm
      intro q hq
      rw [hps] at hq
      simp only [updatePlayer, List.mem_map] at hq
      obtain ⟨q0, hq0, hqe⟩ := hq
      obtain ⟨hlen, h12⟩ := ih q0 hq0
      by_cases hqu : (q0.1 == uid) = true
      · rw [if_pos hqu] at hqe
        subst hqe
        have hlen25 : (q0.2.marks.set j b).length = 25 := by
          rw [List.length_set]
          exact hlen
        refine ⟨hlen25, ?_⟩
        rcases hjb with ⟨rfl, rfl⟩ | hne
        · have h12lt : 12 < q0.2.marks.length := by omega
          simp [List.getD, List.getElem?_set_self, h12lt]
        · have hstep : (q0.2.marks.set j b).getD 12 false =
              q0.2.marks.getD 12 false := by
            simp [List.getD, List.getElem?_set_ne hne]
          rw [hstep]
          exact h12
      · rw [if_neg hqu] at hqe
        subst hqe
        exact ⟨hlen, h12⟩
    | claim uid v ns hc =>
      obtain ⟨hps, -, -, -⟩ := claim_bingo_ok hc
      intro q hq
      rw [hps] at hq
      exact ih q hq

lemma winners_invariant {g : GameState} (h : Reachable g) :
    ∀ w ∈ g.winner_ids, hasKey g.players w = true := by
  induction h with
  | init gid host_id host_name card now => simp [init_game]
  | step g g' hg hs ih =>
    cases hs with
    | join uid name card now hj =>
      rcases join_game_ok hj with rfl | rfl
      · exact ih
      · intro w hw
        exact hasKey_append _ _ _ (ih w hw)
    | draw uid k n hd =>
      obtain ⟨-, rfl⟩ := draw_number_ok hd
      exact ih
    | auto k =>
      intro w hw
      rw [(auto_draw_step_fields g k).1]
      rw [(auto_draw_step_fields g k).2.1] at hw
      exact ih w hw
    | mark uid i m hm =>
      obtain ⟨j, b, -, hps, -, hw, -⟩ := mark_cell_ok hm
      intro w hmem
      rw [hps, hasKey_updatePlayer]
      rw [hw] at hmem
      exact ih w hmem
    | claim uid v ns hc =>
      obtain ⟨hps, -, -, hw⟩ := claim_bingo_ok hc
      intro w hmem
      rw [hps]
      rcases hw with hw | ⟨hw, hk⟩
      · rw [hw] at hmem
        exact ih w hmem
      · rw [hw] at hmem
        rcases List.mem_append.mp hmem with hmem | hmem
        · exact ih w hmem
        · simp only [List.mem_singleton] at hmem
          subst hmem
          exact hk

/-! ### The card generator -/

/-- `cols[c][r]` of the source: row `r` of the take-5 of shuffled column `c`. -/
def cardVal (cols : Nat → List Nat) (r c : Nat) : Nat :=
  ((cols c).take 5).getD r 0

lemma mem_colPool (c v : Nat) :
    v ∈ colPool c ↔ 1 + c * 15 ≤ v ∧ v ≤ 15 + c * 15 := by
  rw [colPool, List.mem_range'_1]
  omega

lemma make_card_getD (cols : Nat → List Nat) (r c : Nat) (hr : r < 5)
    (hc : c < 5) (h : r * 5 + c ≠ 12) :
    (make_card cols).getD (r * 5 + c) none = some (cardVal cols r c) := by
  interval_cases r <;> interval_cases c <;> first | rfl | omega

lemma make_card_getD_div_mod (cols : Nat → List Nat) (i : Nat) (hi : i < 25)
    (h : i ≠ 12) :
    (make_card cols).getD i none = some (cardVal cols (i / 5) (i % 5)) := by
  have h5 : i / 5 * 5 + i % 5 = i := by omega
  have hmc := make_card_getD cols (i / 5) (i % 5) (by omega) (by omega) (by omega)
  rwa [h5] at hmc

lemma cardVal_mem (cols : Nat → List Nat)
    (hcols : ∀ c, c < 5 → (cols c).Perm (colPool c)) {r c : Nat}
    (hr : r < 5) (hc : c < 5) : cardVal cols r c ∈ colPool c := by
  have hlen : (cols c).length = 15 := by
    rw [(hcols c hc).length_eq]
    rfl
  have hr' : r < ((cols c).take 5).length := by
    rw [List.length_take, hlen]
    omega
  rw [cardVal, List.getD_eq_getElem _ _ hr']
  exact (hcols c hc).mem_iff.mp ((List.take_sublist 5 (cols c)).subset
    (List.getElem_mem hr'))

lemma cardVal_injective (cols : Nat → List Nat)
    (hcols : ∀ c, c < 5 → (cols c).Perm (colPool c)) {r r' c : Nat}
    (hr : r < 5) (hr' : r' < 5) (hc : c < 5) (hne : r ≠ r') :
    cardVal cols r c ≠ cardVal cols r' c := by
  have hlen : (cols c).length = 15 := by
    rw [(hcols c hc).length_eq]
    rfl
  have hnd : ((cols c).take 5).Nodup :=
    ((hcols c hc).nodup_iff.mpr (List.nodup_range' _ _)).sublist
      (List.take_sublist 5 (cols c))
  have h1 : r < ((cols c).take 5).length := by
    rw [List.length_take, hlen]
    omega
  have h2 : r' < ((cols c).take 5).length := by
    rw [List.length_take, hlen]
    omega
  rw [cardVal, cardVal, List.getD_eq_getElem _ _ h1, List.getD_eq_getElem _ _ h2]
  intro hceq
  exact hne ((List.Nodup.getElem_inj_iff hnd).mp hceq)

/-- C5: every generated card has exactly 24 non-null values, all pairwise
distinct, the value at cell `row*5+col` lies in `[1+15*col, 15+15*col]`,
and cell 12 is the free marker. -/
theorem C5_make_card_spec (cols : Nat → List Nat)
    (hcols : ∀ c, c < 5 → (cols c).Perm (colPool c)) :
    (make_card cols).length = 25 ∧
    (make_card cols).getD 12 none = none ∧
    (make_card cols).countP (fun o => o.isSome) = 24 ∧
    (∀ r c, r < 5 → c < 5 → r * 5 + c ≠ 12 →
      ∃ v, (make_card cols).getD (r * 5 + c) none = some v ∧
        1 + 15 * c ≤ v ∧ v ≤ 15 + 15 * c) ∧
    (∀ i j vi vj, i < 25 → j < 25 → i ≠ j →
      (make_card cols).getD i none = some vi →
      (make_card cols).getD j none = some vj → vi ≠ vj) := by
  refine ⟨rfl, rfl, rfl, ?_, ?_⟩
  · intro r c hr hc h12
    refine ⟨cardVal cols r c, make_card_getD cols r c hr hc h12, ?_⟩
    have hb := (mem_colPool c _).mp (cardVal_mem cols hcols hr hc)
    constructor <;> omega
  · intro i j vi vj hi hj hij hvi hvj
    have hi12 : i ≠ 12 := by
      rintro rfl
      have h0 : (make_card cols).getD 12 none = none := rfl
      rw [h0] at hvi
      cases hvi
    have hj12 : j ≠ 12 := by
      rintro rfl
      have h0 : (make_card cols).getD 12 none = none := rfl
      rw [h0] at hvj
      cases hvj
    rw [make_card_getD_div_mod cols i hi hi12] at hvi
    rw [make_card_getD_div_mod cols j hj hj12] at hvj
    injection hvi with hvi
    injection hvj with hvj
    subst hvi
    subst hvj
    by_cases hcc : i % 5 = j % 5
    · have hrr : i / 5 ≠ j / 5 := by omega
      rw [hcc]
      exact cardVal_injective cols hcols (by omega) (by omega) (by omega) hrr
    · have b1 := (mem_colPool _ _).mp
        (cardVal_mem cols hcols (r := i / 5) (c := i % 5) (by omega) (by omega))
      have b2 := (mem_colPool _ _).mp
        (cardVal_mem cols hcols (r := j / 5) (c := j % 5) (by omega) (by omega))
      intro heq
      rw [heq] at b1
      omega

/-- Witness for C5 at the identity shuffle. -/
theorem C5_make_card_spec_witness :
    (∀ c, c < 5 → (colPool c).Perm (colPool c)) ∧
    ((make_card colPool).length = 25 ∧
    (make_card colPool).getD 12 none = none ∧
    (make_card colPool).countP (fun o => o.isSome) = 24 ∧
    (∀ r c, r < 5 → c < 5 → r * 5 + c ≠ 12 →
      ∃ v, (make_card colPool).getD (r * 5 + c) none = some v ∧
        1 + 15 * c ≤ v ∧ v ≤ 15 + 15 * c) ∧
    (∀ i j vi vj, i < 25 → j < 25 → i ≠ j →
      (make_card colPool).getD i none = some vi →
      (make_card colPool).getD j none = some vj → vi ≠ vj)) :=
  ⟨fun _ _ => List.Perm.refl _,
   C5_make_card_spec colPool (fun _ _ => List.Perm.refl _)⟩

/-! ### Concrete reachable states used by the witnesses -/

/-- A concrete freshly created game: host `"h"` holding the
identity-shuffle card `make_card colPool`. -/
def gInit : GameState := init_game "g" "h" "Host" (make_card colPool) 0

/-- `gInit` after the scheduler's post-timeout draw fires once. -/
def gDraw1 : GameState := auto_draw_step gInit 0

/-- The state produced by a `mark_cell` write of cell `j` to `b`. -/
def setMark (g : GameState) (uid : String) (j : Nat) (b : Bool) : GameState :=
  let ps := updatePlayer g.players uid
    (fun p => { p with marks := p.marks.set j b })
  { g with players := ps }

/-- `gInit` after `MarkCell("h", index 12, marked = false)` (pinned true). -/
def gMark12 : GameState := setMark gInit "h" 12 true

/-- `gInit` after four auto-draws that call 3, 18, 48 and 63 — the values
of the host's card at cells 10, 11, 13 and 14 (row 2, with 12 free). -/
def gD1 : GameState := auto_draw_step gInit 2

def gD2 : GameState := auto_draw_step gD1 16

def gD3 : GameState := auto_draw_step gD2 45

def gD4 : GameState := auto_draw_step gD3 59

/-- ... after which the host marks cells 10, 11, 13, 14: row 2 (indices
10..14) is then fully marked against drawn numbers, 12 being free. -/
def gRow1 : GameState := setMark gD4 "h" 10 true

def gRow2 : GameState := setMark gRow1 "h" 11 true

def gRow3 : GameState := setMark gRow2 "h" 13 true

def gRow4 : GameState := setMark gRow3 "h" 14 true

/-- `gRow4` after a valid `ClaimBingo` by `"h"`. -/
def gWin : GameState := { gRow4 with winner_ids := gRow4.winner_ids ++ ["h"] }

lemma gInit_reachable : Reachable gInit :=
  Reachable.init "g" "h" "Host" (make_card colPool) 0

lemma gDraw1_reachable : Reachable gDraw1 :=
  Reachable.step _ _ gInit_reachable (GStep.auto gInit 0)

lemma gMark12_reachable : Reachable gMark12 :=
  Reachable.step _ _ gInit_reachable (GStep.mark "h" 12 false (by rfl))

lemma gWin_reachable : Reachable gWin := by
  have hd1 : Reachable gD1 :=
    Reachable.step _ _ gInit_reachable (GStep.auto gInit 2)
  have hd2 : Reachable gD2 := Reachable.step _ _ hd1 (GStep.auto gD1 16)
  have hd3 : Reachable gD3 := Reachable.step _ _ hd2 (GStep.auto gD2 45)
  have hd4 : Reachable gD4 := Reachable.step _ _ hd3 (GStep.auto gD3 59)
  have h1 : Reachable gRow1 :=
    Reachable.step _ _ hd4 (GStep.mark "h" 10 true (by rfl))
  have h2 : Reachable gRow2 :=
    Reachable.step _ _ h1 (GStep.mark "h" 11 true (by rfl))
  have h3 : Reachable gRow3 :=
    Reachable.step _ _ h2 (GStep.mark "h" 13 true (by rfl))
  have h4 : Reachable gRow4 :=
    Reachable.step _ _ h3 (GStep.mark "h" 14 true (by rfl))
  exact Reachable.step _ _ h4
    (GStep.claim "h" true (winner_names gWin.players gWin.winner_ids) (by rfl))

/-! ### Claim theorems -/

/-- C1: in every reachable game state the draw sequence contains only
values in [1,75] with no duplicates; the manual `draw_number` operation and
the auto-draw scheduler's internal draw both preserve this, each appending
one number selected from the numbers not yet in `draws`, so neither can
append a duplicate. -/
theorem C1_draws_strict_set (g : GameState) (h : Reachable g) :
    (g.draws.Nodup ∧ ∀ n ∈ g.draws, 1 ≤ n ∧ n ≤ 75) ∧
    (∀ uid k g' n, draw_number (some g) uid k = .ok (g', n) →
      n ∉ g.draws ∧ g'.draws = g.draws ++ [n] ∧ g'.draws.Nodup) ∧
    (∀ k, (auto_draw_step g k).draws = g.draws ∨
      ∃ n, n ∉ g.draws ∧ (auto_draw_step g k).draws = g.draws ++ [n] ∧
        (auto_draw_step g k).draws.Nodup) := by
  have hinv := draws_invariant h
  refine ⟨hinv, ?_, ?_⟩
  · intro uid k g' n hd
    obtain ⟨hn, rfl⟩ := draw_number_ok hd
    exact ⟨((mem_remaining_numbers _ _).mp hn).2.2, rfl,
      (draws_append_ok hinv hn).1⟩
  · intro k
    by_cases h75 : 75 ≤ g.draws.length
    · exact Or.inl (by rw [(auto_draw_step_eq g k).1 (Or.inl h75)])
    · by_cases hrem : remaining_numbers g.draws = []
      · exact Or.inl (by rw [(auto_draw_step_eq g k).1 (Or.inr hrem)])
      · refine Or.inr ⟨(remaining_numbers g.draws).getD
          (k % (remaining_numbers g.draws).length) 0, ?_, ?_, ?_⟩
        · exact ((mem_remaining_numbers _ _).mp (pick_mem hrem k)).2.2
        · rw [(auto_draw_step_eq g k).2 (by omega) hrem]
        · rw [(auto_draw_step_eq g k).2 (by omega) hrem]
          exact (draws_append_ok hinv (pick_mem hrem k)).1

/-- Witness for C1 at a game that has taken one auto-draw step. -/
theorem C1_draws_strict_set_witness :
    ((gDraw1.draws.Nodup ∧ ∀ n ∈ gDraw1.draws, 1 ≤ n ∧ n ≤ 75) ∧
    (∀ uid k g' n, draw_number (some gDraw1) uid k = .ok (g', n) →
      n ∉ gDraw1.draws ∧ g'.draws = gDraw1.draws ++ [n] ∧ g'.draws.Nodup) ∧
    (∀ k, (auto_draw_step gDraw1 k).draws = gDraw1.draws ∨
      ∃ n, n ∉ gDraw1.draws ∧
        (auto_draw_step gDraw1 k).draws = gDraw1.draws ++ [n] ∧
        (auto_draw_step gDraw1 k).draws.Nodup)) :=
  C1_draws_strict_set gDraw1 gDraw1_reachable

/-- C9: in every reachable game state, every player's marks hold `true` at
the free index 12 (initialized by `new_marks`, pinned by `mark_cell` even
for `marked = false`, untouched by every other operation). -/
theorem C9_free_cell_always_marked (g : GameState) (h : Reachable g) :
    ∀ q ∈ g.players, q.2.marks.getD 12 false = true :=
  fun q hq => (marks_invariant h q hq).2

/-- Witness for C9 at a game where the host called
`MarkCell(index 12, marked = false)`. -/
theorem C9_free_cell_always_marked_witness :
    gMark12.players.all (fun q => q.2.marks.getD 12 false) = true :=
  List.all_eq_true.mpr
    (fun q hq => C9_free_cell_always_marked gMark12 gMark12_reachable q hq)

/-- C10: in every reachable game state every winner id is a key of the
players map, so the winner-name resolution of `get_state` and
`claim_bingo` never actually skips an id. -/
theorem C10_winners_are_players (g : GameState) (h : Reachable g) :
    (∀ w ∈ g.winner_ids, hasKey g.players w = true) ∧
    (winner_names g.players g.winner_ids).length = g.winner_ids.length := by
  have hw := winners_invariant h
  refine ⟨hw, length_filterMap_of_isSome _ _ ?_⟩
  intro w hwmem
  have hk := hw w hwmem
  rw [hasKey_eq_isSome] at hk
  rcases hlp : lookupPlayer g.players w with _ | p
  · rw [hlp] at hk
    cases hk
  · rfl

/-- Witness for C10 at a game with a recorded winner. -/
theorem C10_winners_are_players_witness :
    (∀ w ∈ gWin.winner_ids, hasKey gWin.players w = true) ∧
    (winner_names gWin.players gWin.winner_ids).length =
      gWin.winner_ids.length :=
  C10_winners_are_players gWin gWin_reachable

/-- C6: `claim_bingo` appends the caller to the winner list exactly when
the claim is valid and the caller is not already recorded; an invalid claim
leaves the state unchanged; and a repeated valid claim by the same winner
returns the same state (no duplicate id). -/
theorem C6_claim_idempotent (g g' : GameState) (uid : String) (v : Bool)
    (ns : List String) (h : claim_bingo (some g) uid = .ok (g', v, ns)) :
    g'.winner_ids = (if v = true ∧ g.winner_ids.contains uid = false
      then g.winner_ids ++ [uid] else g.winner_ids) ∧
    (v = false → g' = g) ∧
    (v = true → claim_bingo (some g') uid = .ok (g', true, ns)) := by
  simp only [claim_bingo] at h
  split_ifs at h with h1
  rcases hp : lookupPlayer g.players uid with _ | p
  · rw [hp] at h
    cases h
  · rw [hp] at h
    simp only at h
    split_ifs at h with h2
    · injection h with h
      have hA := congrArg Prod.fst h
      have hB := congrArg (fun x => x.2.1) h
      have hC := congrArg (fun x => x.2.2) h
      simp only at hA hB hC
      obtain ⟨hv, hcont⟩ := Bool.and_eq_true_iff.mp h2
      rw [Bool.not_eq_true'] at hcont
      subst hA
      subst hB
      subst hC
      refine ⟨?_, ?_, ?_⟩
      · rw [if_pos ⟨hv, hcont⟩]
      · intro hf
        rw [hv] at hf
        cases hf
      · intro _
        simp only [claim_bingo]
        rw [if_neg (show ¬({ g with winner_ids := g.winner_ids ++ [uid]} :
          GameState).closed = true from h1)]
        rw [show lookupPlayer ({ g with winner_ids := g.winner_ids ++ [uid]} :
          GameState).players uid = some p from hp]
        simp only
        rw [if_neg (show ¬((marked_cells_are_valid p.card p.marks
            ({ g with winner_ids := g.winner_ids ++ [uid]} : GameState).draws &&
            check_line_bingo p.marks) &&
            !(({ g with winner_ids := g.winner_ids ++ [uid]} :
              GameState).winner_ids.contains uid)) = true by
          simp only [Bool.and_eq_true, Bool.not_eq_true']
          rintro ⟨-, hcc⟩
          have : (g.winner_ids ++ [uid]).contains uid = true := by simp
          rw [this] at hcc
          cases hcc)]
        rw [show (marked_cells_are_valid p.card p.marks
            ({ g with winner_ids := g.winner_ids ++ [uid]} : GameState).draws &&
            check_line_bingo p.marks) = true from hv]
    · injection h with h
      have hA := congrArg Prod.fst h
      have hB := congrArg (fun x => x.2.1) h
      have hC := congrArg (fun x => x.2.2) h
      simp only at hA hB hC
      subst hA
      subst hB
      subst hC
      refine ⟨?_, fun _ => rfl, ?_⟩
      · rw [if_neg]
        rintro ⟨hv, hcont⟩
        apply h2
        rw [hv, hcont]
        rfl
      · intro hv
        have hcont : g.winner_ids.contains uid = true := by
          by_cases hcc : g.winner_ids.contains uid = true
          · exact hcc
          · exfalso
            apply h2
            rw [hv, Bool.eq_false_iff.mpr hcc]
            rfl
        simp only [claim_bingo]
        rw [if_neg h1, hp]
        simp only
        rw [if_neg (by rw [hv, hcont]; simp)]
        rw [hv]

/-- Witness for C6: the concrete valid claim that produced `gWin`, and the
idempotence of a second claim on it. -/
theorem C6_claim_idempotent_witness :
    gWin.winner_ids = (if true = true ∧ gRow4.winner_ids.contains "h" = false
      then gRow4.winner_ids ++ ["h"] else gRow4.winner_ids) ∧
    (true = false → gWin = gRow4) ∧
    (true = true → claim_bingo (some gWin) "h" =
      .ok (gWin, true, winner_names gWin.players gWin.winner_ids)) :=
  C6_claim_idempotent gRow4 gWin "h" true
    (winner_names gWin.players gWin.winner_ids) (by rfl)

/-- C7: for an open game, rejoining an existing `userId` is a no-op that
keeps that player's card and marks even at the 400-player cap, while a new
`userId` is rejected with Forbidden exactly when the game already has 400
players. -/
theorem C7_join_cap (g : GameState) (uid name : String)
    (card : List (Option Nat)) (now : Nat) (hopen : g.closed = false) :
    (hasKey g.players uid = true → join_game (some g) uid name card now = .ok g) ∧
    (hasKey g.players uid = false →
      (join_game (some g) uid name card now = .error .forbidden ↔
        400 ≤ g.players.length)) := by
  have hcl : ¬g.closed = true := by
    rw [hopen]
    exact Bool.false_ne_true
  constructor
  · intro hk
    simp only [join_game]
    rw [if_neg hcl]
    rw [if_neg (by rintro ⟨-, hc⟩; rw [hk] at hc; cases hc)]
    rw [if_pos hk]
  · intro hk
    simp only [join_game]
    rw [if_neg hcl]
    by_cases hlen : 400 ≤ g.players.length
    · rw [if_pos ⟨hlen, hk⟩]
      exact ⟨fun _ => hlen, fun _ => rfl⟩
    · rw [if_neg (by rintro ⟨hc, -⟩; exact hlen hc)]
      rw [if_neg (by rw [hk]; exact Bool.false_ne_true)]
      exact ⟨(fun hc => by cases hc), fun hc => absurd hc hlen⟩

/-- Witness for C7: the host rejoining the fresh game is a no-op. -/
theorem C7_join_cap_witness :
    gInit.closed = false ∧ hasKey gInit.players "h" = true ∧
    join_game (some gInit) "h" "Again" [] 1 = .ok gInit :=
  ⟨rfl, rfl, (C7_join_cap gInit "h" "Again" [] 1 rfl).1 rfl⟩

/-- C8: a `MarkCell` request with index outside [0,24] fails validation
with InvalidArgument before the handler runs, so no state is written (the
operation returns no successor state). -/
theorem C8_mark_out_of_range (g : Option GameState) (uid : String) (i : Int)
    (m : Bool) (h : i < 0 ∨ 24 < i) :
    mark_cell g uid i m = .error .invalidArgument := by
  simp only [mark_cell]
  rw [if_pos h]

/-- Witness for C8 at index 25 (and nothing succeeds there). -/
theorem C8_mark_out_of_range_witness :
    ((25 : Int) < 0 ∨ 24 < (25 : Int)) ∧
    mark_cell (some gInit) "h" 25 true = .error .invalidArgument :=
  ⟨by decide, C8_mark_out_of_range (some gInit) "h" 25 true (by decide)⟩

/-! ### C2: the post-timeout draw step does not re-check `closed` -/

/-- A closed game with undrawn numbers, as the scheduler's post-timeout
block would see it if a (future) operation set `closed` during the wait. -/
def gClosed : GameState :=
  { game_id := "gc", host_id := "h", created_at := 0, draws := [],
    players := [], winner_ids := [], closed := true }

/-- C2 counterexample: the auto-draw scheduler's post-timeout draw step
appends a number to a game whose closed flag is true, so it does not
re-check `closed` (only existence, draw count and pool). -/
theorem C2_counterexample :
    gClosed.closed = true ∧ gClosed.draws = [] ∧
    (auto_draw_step gClosed 0).draws = [1] :=
  ⟨rfl, rfl, rfl⟩

/-- C2 amended: on wake by timeout the loop re-checks that the game still
exists, has fewer than 75 draws and has an undrawn number, appending one
remaining number exactly when these hold; it does not re-check the closed
flag, so the post-timeout step appends to a closed game just the same
(`closed` is consulted only at the top of the next iteration). -/
theorem C2_amended_post_timeout_checks (g : GameState) (k : Nat) :
    (g.draws.length < 75 → remaining_numbers g.draws ≠ [] →
      (auto_draw_step g k).draws = g.draws ++
        [(remaining_numbers g.draws).getD
          (k % (remaining_numbers g.draws).length) 0]) ∧
    (75 ≤ g.draws.length ∨ remaining_numbers g.draws = [] →
      auto_draw_step g k = g) ∧
    (auto_draw_step { g with closed := true } k).draws =
      (auto_draw_step g k).draws := by
  refine ⟨?_, (auto_draw_step_eq g k).1, ?_⟩
  · intro h75 hrem
    rw [(auto_draw_step_eq g k).2 h75 hrem]
  · by_cases h75 : 75 ≤ g.draws.length
    · rw [(auto_draw_step_eq g k).1 (Or.inl h75),
        (auto_draw_step_eq { g with closed := true } k).1 (Or.inl h75)]
    · by_cases hrem : remaining_numbers g.draws = []
      · rw [(auto_draw_step_eq g k).1 (Or.inr hrem),
          (auto_draw_step_eq { g with closed := true } k).1 (Or.inr hrem)]
      · have h75' : g.draws.length < 75 := by omega
        rw [(auto_draw_step_eq g k).2 h75' hrem,
          (auto_draw_step_eq { g with closed := true } k).2
            (show ({ g with closed := true } : GameState).draws.length < 75
              from h75')
            (show remaining_numbers
              ({ g with closed := true } : GameState).draws ≠ [] from hrem)]

/-- Witness for C2's amended statement at the closed game. -/
theorem C2_amended_post_timeout_checks_witness :
    gClosed.draws.length < 75 ∧ remaining_numbers gClosed.draws ≠ [] ∧
    (auto_draw_step gClosed 0).draws = gClosed.draws ++
      [(remaining_numbers gClosed.draws).getD
        (0 % (remaining_numbers gClosed.draws).length) 0] :=
  ⟨by decide, by decide,
   (C2_amended_post_timeout_checks gClosed 0).1 (by decide) (by decide)⟩

/-! ### C3: the interval is validated, not clamped -/

/-- C3 counterexample: a host call on an existing game with out-of-range
interval 1 is rejected by request validation; it is neither clamped to the
nearest bound 2 nor accepted as given. -/
theorem C3_counterexample :
    set_auto_draw (some gInit) "h" true 1 = .error .invalidArgument ∧
    set_auto_draw (some gInit) "h" true 1 ≠ .ok (true, 2) ∧
    set_auto_draw (some gInit) "h" true 1 ≠ .ok (true, 1) := by
  have h0 : set_auto_draw (some gInit) "h" true 1 =
      .error .invalidArgument := rfl
  refine ⟨h0, ?_, ?_⟩ <;> intro hc <;> rw [h0] at hc <;> cases hc

/-- C3 amended: an out-of-range interval makes the request fail validation
with InvalidArgument; an in-range interval is applied unchanged and the
host's call succeeds with an acknowledgement echoing on and interval. -/
theorem C3_amended_interval_validated (g : GameState) (onFlag : Bool)
    (i : Int) :
    (2 ≤ i → i ≤ 60 →
      set_auto_draw (some g) g.host_id onFlag i = .ok (onFlag, i)) ∧
    ((i < 2 ∨ 60 < i) →
      set_auto_draw (some g) g.host_id onFlag i = .error .invalidArgument) := by
  constructor
  · intro h2 h60
    simp only [set_auto_draw]
    rw [if_neg (by omega)]
    rw [if_neg (by simp)]
  · intro h
    simp only [set_auto_draw]
    rw [if_pos h]

/-- Witness for C3's amended statement: interval 5 is echoed unchanged. -/
theorem C3_amended_interval_validated_witness :
    (2 : Int) ≤ 5 ∧ (5 : Int) ≤ 60 ∧
    set_auto_draw (some gInit) gInit.host_id true 5 = .ok (true, 5) :=
  ⟨by decide, by decide,
   (C3_amended_interval_validated gInit true 5).1 (by decide) (by decide)⟩

/-! ### C4: no collision check on game creation -/

lemma find?_map_overwrite (d : List (String × GameState)) (k : String)
    (v : GameState) (h : d.any (fun q => q.1 == k) = true) :
    (d.map (fun q => if q.1 == k then (q.1, v) else q)).find?
      (fun q => q.1 == k) = some (k, v) := by
  induction d with
  | nil => cases h
  | cons q t ih =>
    by_cases hq : (q.1 == k) = true
    · have hk : q.1 = k := by simpa using hq
      simp only [List.map_cons, if_pos hq, List.find?_cons]
      rw [show ((q.1, v).1 == k) = true from hq]
      rw [hk]
    · simp only [List.any_cons, Bool.or_eq_true] at h
      rcases h with h | h
      · exact absurd h hq
      · simp only [List.map_cons, if_neg hq, List.find?_cons]
        rw [show (q.1 == k) = false from Bool.eq_false_iff.mpr hq]
        exact ih h

lemma find?_map_other (d : List (String × GameState)) (k k2 : String)
    (v : GameState) (h : k2 ≠ k) :
    (d.map (fun q => if q.1 == k then (q.1, v) else q)).find?
      (fun q => q.1 == k2) = d.find? (fun q => q.1 == k2) := by
  induction d with
  | nil => rfl
  | cons q t ih =>
    by_cases hq : (q.1 == k) = true
    · have hk : q.1 = k := by simpa using hq
      have hq2 : (q.1 == k2) = false := by
        simp only [beq_eq_false_iff_ne, ne_eq]
        rw [hk]
        exact fun hc => h hc.symm
      simp only [List.map_cons, if_pos hq, List.find?_cons]
      rw [show ((q.1, v).1 == k2) = false from hq2]
      exact ih
    · simp only [List.map_cons, if_neg hq, List.find?_cons]
      cases hq2 : (q.1 == k2) with
      | true => rfl
      | false => exact ih

lemma lookupGame_dictInsert_self (d : List (String × GameState)) (k : String)
    (v : GameState) : lookupGame (dictInsert d k v) k = some v := by
  unfold dictInsert
  split_ifs with h
  · rw [lookupGame, find?_map_overwrite d k v h]
    rfl
  · rw [lookupGame, List.find?_append]
    have hnone : d.find? (fun q => q.1 == k) = none := by
      rw [List.find?_eq_none]
      intro x hx
      simp only [Bool.not_eq_true]
      rcases hb : (x.1 == k) with _ | _
      · rfl
      · exfalso
        rw [Bool.not_eq_true] at h
        rw [List.any_eq_false] at h  -- placeholder, fixed below
        exact absurd hb (by simpa using h x hx)
    rw [hnone]
    simp

lemma lookupGame_dictInsert_other (d : List (String × GameState))
    (k k2 : String) (v : GameState) (h : k2 ≠ k) :
    lookupGame (dictInsert d k v) k2 = lookupGame d k2 := by
  unfold dictInsert
  split_ifs with hmem
  · rw [lookupGame, find?_map_other d k k2 v h]
    rfl
  · rw [lookupGame, List.find?_append]
    have hlast : ([(k, v)] : List (String × GameState)).find?
        (fun q => q.1 == k2) = none := by
      simp only [List.find?_cons]
      rw [show (k == k2) = false from beq_eq_false_iff_ne.mpr
        (fun hc => h hc.symm)]
      rfl
    rw [hlast]
    simp [lookupGame]

/-- C4 counterexample: with a game already registered under `"g"`, a token
generator outcome of `"g"` makes `create_game` overwrite that entry. -/
theorem C4_counterexample :
    lookupGame [("g", gInit)] "g" = some gInit ∧
    lookupGame (create_game [("g", gInit)] "g" "h2" "Other" [] 1) "g" =
      some (init_game "g" "h2" "Other" [] 1) ∧
    lookupGame (create_game [("g", gInit)] "g" "h2" "Other" [] 1) "g" ≠
      some gInit := by
  refine ⟨rfl, rfl, ?_⟩
  intro hc
  have h2 : lookupGame (create_game [("g", gInit)] "g" "h2" "Other" [] 1)
      "g" = some (init_game "g" "h2" "Other" [] 1) := rfl
  rw [h2] at hc
  injection hc with hc
  have := congrArg GameState.host_id hc
  simp only [init_game, gInit] at this
  exact absurd this (by decide)

/-- C4 amended: `create_game` stores the fresh game under the generated
identifier without any collision check or retry: afterwards the registry
maps that identifier to the fresh game (overwriting any existing entry
under it), and every other identifier resolves as before. -/
theorem C4_amended_create_overwrites (games : List (String × GameState))
    (gid host_id host_name : String) (card : List (Option Nat)) (now : Nat) :
    lookupGame (create_game games gid host_id host_name card now) gid =
      some (init_game gid host_id host_name card now) ∧
    ∀ k2, k2 ≠ gid →
      lookupGame (create_game games gid host_id host_name card now) k2 =
        lookupGame games k2 :=
  ⟨lookupGame_dictInsert_self games gid _,
   fun _ hk2 => lookupGame_dictInsert_other games gid _ _ hk2⟩

/-- Witness for C4's amended statement at the colliding registry. -/
theorem C4_amended_create_overwrites_witness :
    lookupGame (create_game [("g", gInit)] "g" "h2" "Other" [] 1) "g" =
      some (init_game "g" "h2" "Other" [] 1) ∧
    "x" ≠ "g" ∧
    lookupGame (create_game [("g", gInit)] "g" "h2" "Other" [] 1) "x" =
      lookupGame [("g", gInit)] "x" :=
  ⟨(C4_amended_create_overwrites [("g", gInit)] "g" "h2" "Other" [] 1).1,
   by decide,
   (C4_amended_create_overwrites [("g", gInit)] "g" "h2" "Other" [] 1).2
     "x" (by decide)⟩

end Bingo
